import Mathlib

/-!
Shallow embedding of the conversation-memory windowing core of the
repository (scripts/demo/conversation_memory_demo.py,
backend/python_service/utils/tokenizer.py,
backend/python_service/prompts/runtime_builder.py) together with proofs
about that embedding.

Strings are modelled by Lean `String` (a list of Unicode characters);
Python integers by `Int` (token counts, which are lengths in the source,
by `Nat`).  The external subword tokenizer (`tiktoken`) is not part of
the repository: functions that may consult it are parametrised by the
outcome of that consultation.
-/

/-- Python `\w` (word character) for the regex `\w+|[^\w\s]` used by
`_heuristic_count`: letters, digits or underscore.  (Lean's character
classification covers the ASCII range; the Unicode category tables of
Python's `re` module are external data.) -/
def isWordChar (c : Char) : Bool := c.isAlphanum || c = '_'

/-- Python `\s` (whitespace) for the same regex. -/
def isSpaceChar (c : Char) : Bool := c.isWhitespace

/-- Emit the pending maximal `\w+` run (held reversed) as a token, if any. -/
def flushAcc (acc : List Char) : List (List Char) :=
  if acc = [] then [] else [acc.reverse]

/-- Left-to-right scanner of `re.findall(r"\w+|[^\w\s]", text)`:
`acc` is the current (still open, reversed) maximal run of word
characters; a non-word character closes the run; a non-word non-space
character is additionally a single-character token; whitespace is
skipped. -/
def findallGo : List Char → List Char → List (List Char)
  | [], acc => flushAcc acc
  | c :: rest, acc =>
    if isWordChar c then
      findallGo rest (c :: acc)
    else if isSpaceChar c then
      flushAcc acc ++ findallGo rest []
    else
      flushAcc acc ++ [c] :: findallGo rest []

/-- The token list of `re.findall(r"\w+|[^\w\s]", text, flags=re.UNICODE)`. -/
def findallTokens (l : List Char) : List (List Char) := findallGo l []

/-- Source `tokenizer._heuristic_count`:
`len(re.findall(r"\w+|[^\w\s]", text, flags=re.UNICODE))`. -/
def heuristic_count (s : String) : Nat := (findallTokens s.data).length

/-- Python `str.strip()`: drop leading and trailing whitespace. -/
def pyStrip (s : String) : String :=
  String.mk (((s.data.dropWhile Char.isWhitespace).reverse.dropWhile
    Char.isWhitespace).reverse)

/-- Python `str.lower()` (character-wise lowering). -/
def pyLower (s : String) : String := String.mk (s.data.map Char.toLower)

/-- Python `str.capitalize()`: first character upper-cased, the rest
lower-cased. -/
def pyCapitalize (s : String) : String :=
  match s.data with
  | [] => ""
  | c :: rest => String.mk (c.toUpper :: rest.map Char.toLower)

/-- A parsed conversation turn: the dict `{"role": ..., "content": ...}`
produced by `parse_turn`. -/
structure Turn where
  role : String
  content : String
deriving DecidableEq, Repr

/-- Python `s.split(sep, 1)` restricted to what `parse_turn` needs:
`none` when `sep` does not occur, otherwise the parts before and after
the first occurrence. -/
def splitOnFirst (sep : Char) : List Char → Option (List Char × List Char)
  | [] => none
  | c :: rest =>
    if c = sep then some ([], rest)
    else
      match splitOnFirst sep rest with
      | none => none
      | some (l, r) => some (c :: l, r)

/-- Source `conversation_memory_demo.parse_turn`: split on the first colon
(`None` when there is no colon), strip and lower-case the role, strip
the content, and keep only the roles `"user"` and `"assistant"`. -/
def parse_turn (turn_str : String) : Option Turn :=
  match splitOnFirst ':' turn_str.data with
  | none => none
  | some (r, c) =>
    let role := pyLower (pyStrip (String.mk r))
    let content := pyStrip (String.mk c)
    if role = "user" || role = "assistant" then some ⟨role, content⟩ else none

/-- Source `conversation_memory_demo.normalize_history`: parse each raw turn
and keep the successfully parsed ones, in input order. -/
def normalize_history (turns : List String) : List Turn :=
  turns.filterMap parse_turn

/-- The rendered history line
`f"- {item['role'].capitalize()}: {item['content']}\n"` whose token
count drives the budget walk. -/
def renderLine (t : Turn) : String :=
  "- " ++ pyCapitalize t.role ++ ": " ++ t.content ++ "\n"

/-- Source `conversation_memory_demo.window_by_max_turns`:
`[]` when `max_turns <= 0`, otherwise the Python slice
`history[-max_turns:]` (the last `max_turns` elements, or all of them
when the history is shorter). -/
def window_by_max_turns (history : List Turn) (max_turns : Int) : List Turn :=
  if max_turns ≤ 0 then []
  else history.drop (history.length - max_turns.toNat)

/-- The loop of `window_by_token_budget`: walk the (already reversed)
history, keep a turn while `total + tokens <= budget`, and stop (Python
`break`) at the first turn that would overflow.  `est` stands for
`lambda line: count_tokens(line, model_name)`, the per-line token
estimate of the demo.  The returned list is the accumulator `acc`
(most recent first). -/
def windowAcc (est : String → Nat) (budget : Int) :
    List Turn → Nat → List Turn
  | [], _ => []
  | item :: rest, total =>
    let tokens := est (renderLine item)
    if (total + tokens : Int) > budget then []
    else item :: windowAcc est budget rest (total + tokens)

/-- Source `conversation_memory_demo.window_by_token_budget`: greedy walk from
the end of the history, then `list(reversed(acc))`. -/
def window_by_token_budget (est : String → Nat) (history : List Turn)
    (budget : Int) : List Turn :=
  (windowAcc est budget history.reverse 0).reverse

/-- Total token cost of a window: the sum over its turns of the token
estimate of each rendered line. -/
def historyCost (est : String → Nat) (w : List Turn) : Nat :=
  (w.map fun t => est (renderLine t)).sum

/-- The constraint selection of `__main__`:
`if token_budget and token_budget > 0:` use the token-budget windower,
`else` the max-turns windower.  (`token_budget` is `None` when the flag
is absent; a supplied `0` is falsy in Python, so both conditions of the
guard are kept.) -/
def select_window (est : String → Nat) (history : List Turn)
    (token_budget : Option Int) (max_turns : Int) : List Turn :=
  match token_budget with
  | none => window_by_max_turns history max_turns
  | some b =>
    if b ≠ 0 ∧ 0 < b then window_by_token_budget est history b
    else window_by_max_turns history max_turns

/-- Source `tokenizer.count_tokens`: the whole `try` body (import `tiktoken`,
resolve an encoding from the model hint or fall back to `cl100k_base`,
encode) is modelled by `primary`, a function from the text and the model
hint to either a count or an exception; the `except Exception` arm
returns `_heuristic_count(text)`. -/
def count_tokens (primary : String → Option String → Except String Nat)
    (text : String) (model_name : Option String) : Nat :=
  match primary text model_name with
  | Except.ok n => n
  | Except.error _ => heuristic_count text

/-- Source `runtime_builder.PromptParts`. -/
structure PromptParts where
  system : String
  user : String
deriving DecidableEq, Repr

/-- Source `runtime_builder.load_system_prompt`: the static resource
`system_prompt.md` is modelled by `resource` (`none` when the file does
not exist); a missing resource raises `FileNotFoundError`, otherwise the
file text is returned stripped. -/
def load_system_prompt (resource : Option String) : Except String String :=
  match resource with
  | none => Except.error "Missing system prompt at SYSTEM_PROMPT_PATH"
  | some text => Except.ok (pyStrip text)

/-- Source `runtime_builder.build_prompt`: load the system prompt (propagating
its exception), strip the user message, and pair them. -/
def build_prompt (resource : Option String) (user_message : String) :
    Except String PromptParts :=
  match load_system_prompt resource with
  | Except.error e => Except.error e
  | Except.ok system => Except.ok ⟨system, pyStrip user_message⟩

/-- The five-turn example history of the spec:
`normalize(["user:a","assistant:b","user:c","assistant:d","user:e"])`. -/
def exHist5 : List Turn :=
  normalize_history ["user:a", "assistant:b", "user:c", "assistant:d", "user:e"]

example : exHist5 = [⟨"user", "a"⟩, ⟨"assistant", "b"⟩, ⟨"user", "c"⟩,
    ⟨"assistant", "d"⟩, ⟨"user", "e"⟩] := by decide

example : heuristic_count "Hello, world!" = 4 := by decide

example : window_by_token_budget heuristic_count exHist5 0 = [] := by decide

example : window_by_max_turns exHist5 4 =
    [⟨"assistant", "b"⟩, ⟨"user", "c"⟩, ⟨"assistant", "d"⟩, ⟨"user", "e"⟩] := by
  decide

/-- Unfolding of the field projection of `String.mk`. -/
theorem data_mk (l : List Char) : (String.mk l).data = l := rfl

/-- Equation lemma: the budget walk on the empty (reversed) history. -/
theorem windowAcc_nil (est : String → Nat) (b : Int) (t : Nat) :
    windowAcc est b [] t = [] := rfl

/-- Equation lemma: one step of the budget walk. -/
theorem windowAcc_cons (est : String → Nat) (b : Int) (x : Turn)
    (xs : List Turn) (t : Nat) :
    windowAcc est b (x :: xs) t =
      if (t : Int) + est (renderLine x) > b then []
      else x :: windowAcc est b xs (t + est (renderLine x)) := rfl

theorem historyCost_nil (est : String → Nat) : historyCost est [] = 0 := rfl

theorem historyCost_cons (est : String → Nat) (x : Turn) (l : List Turn) :
    historyCost est (x :: l) = est (renderLine x) + historyCost est l := by
  simp [historyCost]

theorem historyCost_reverse (est : String → Nat) (l : List Turn) :
    historyCost est l.reverse = historyCost est l := by
  simp [historyCost, List.sum_reverse]

/-- The budget walk never invents turns: its output extends to the input. -/
theorem windowAcc_suffix (est : String → Nat) (b : Int) :
    ∀ (m : List Turn) (t : Nat), ∃ rest, windowAcc est b m t ++ rest = m := by
  intro m
  induction m with
  | nil => exact fun t => ⟨[], rfl⟩
  | cons x xs ih =>
    intro t
    rw [windowAcc_cons]
    by_cases h : (t : Int) + est (renderLine x) > b
    · exact ⟨x :: xs, by simp [h]⟩
    · obtain ⟨rest, hr⟩ := ih (t + est (renderLine x))
      exact ⟨rest, by simp [h, hr]⟩

/-- Invariant of the budget walk: starting from a running total within the
budget, the total together with the cost of everything kept stays within
the budget. -/
theorem windowAcc_le (est : String → Nat) (b : Int) :
    ∀ (m : List Turn) (t : Nat), (t : Int) ≤ b →
      (t : Int) + historyCost est (windowAcc est b m t) ≤ b := by
  intro m
  induction m with
  | nil =>
    intro t ht
    simpa [windowAcc_nil, historyCost_nil] using ht
  | cons x xs ih =>
    intro t ht
    rw [windowAcc_cons]
    by_cases h : (t : Int) + est (renderLine x) > b
    · simpa [h, historyCost_nil] using ht
    · push_neg at h
      have hrec := ih (t + est (renderLine x)) (by push_cast; omega)
      rw [if_neg (by omega), historyCost_cons]
      push_cast at hrec ⊢
      omega

/-- Every turn the budget walk keeps fits, on its own, under the budget
left at the point where the walk started. -/
theorem windowAcc_mem (est : String → Nat) (b : Int) :
    ∀ (m : List Turn) (t : Nat) (x : Turn), x ∈ windowAcc est b m t →
      (t : Int) + est (renderLine x) ≤ b := by
  intro m
  induction m with
  | nil => intro t x hx; simp [windowAcc_nil] at hx
  | cons y ys ih =>
    intro t x hx
    rw [windowAcc_cons] at hx
    by_cases h : (t : Int) + est (renderLine y) > b
    · simp [h] at hx
    · rw [if_neg h] at hx
      push_neg at h
      rcases List.mem_cons.mp hx with rfl | hx2
      · exact h
      · have := ih (t + est (renderLine y)) x hx2
        push_cast at this ⊢
        omega

/-- Running the budget walk on its own output (with the same budget and
the same starting total) keeps everything. -/
theorem windowAcc_idem (est : String → Nat) (b : Int) :
    ∀ (m : List Turn) (t : Nat),
      windowAcc est b (windowAcc est b m t) t = windowAcc est b m t := by
  intro m
  induction m with
  | nil => intro t; rfl
  | cons x xs ih =>
    intro t
    rw [windowAcc_cons]
    by_cases h : (t : Int) + est (renderLine x) > b
    · simp [h, windowAcc_nil]
    · rw [if_neg h, windowAcc_cons, if_neg h, ih]

/-- A running total already over the budget stops the walk at once. -/
theorem windowAcc_over (est : String → Nat) (b : Int) :
    ∀ (m : List Turn) (t : Nat), b < (t : Int) → windowAcc est b m t = [] := by
  intro m
  cases m with
  | nil => intro t _; rfl
  | cons x xs =>
    intro t ht
    rw [windowAcc_cons, if_pos]
    have : (0 : Int) ≤ est (renderLine x) := Int.natCast_nonneg _
    omega

/-- A rendered history line starts with the dash character. -/
theorem renderLine_data (t : Turn) :
    (renderLine t).data =
      '-' :: ' ' :: ((pyCapitalize t.role).data ++ ':' :: ' ' ::
        (t.content.data ++ ['\n'])) := by
  simp [renderLine, String.data_append]

/-- The scanner turns a leading dash into a single-character token. -/
theorem findallGo_dash (l : List Char) :
    findallGo ('-' :: l) [] = ['-'] :: findallGo l [] := by
  simp +decide [findallGo, flushAcc]

/-- The heuristic estimator gives every rendered history line at least
one token (the rendered shape opens with a dash). -/
theorem one_le_heuristic_renderLine (t : Turn) :
    1 ≤ heuristic_count (renderLine t) := by
  rw [heuristic_count, findallTokens, renderLine_data, findallGo_dash]
  simp

/-- Python `split` with no separator present: `None` branch of
`parse_turn`. -/
theorem splitOnFirst_eq_none (sep : Char) :
    ∀ l : List Char, ¬ sep ∈ l → splitOnFirst sep l = none := by
  intro l
  induction l with
  | nil => intro _; rfl
  | cons c rest ih =>
    intro h
    have hc : ¬ c = sep := fun hcs => h (hcs ▸ List.mem_cons_self c rest)
    have hrest : ¬ sep ∈ rest := fun hm => h (List.mem_cons_of_mem c hm)
    simp [splitOnFirst, hc, ih hrest]

/-- Python `split(sep, 1)` splits at the first occurrence of the
separator. -/
theorem splitOnFirst_first (sep : Char) :
    ∀ (pre post : List Char), ¬ sep ∈ pre →
      splitOnFirst sep (pre ++ sep :: post) = some (pre, post) := by
  intro pre
  induction pre with
  | nil => intro post _; simp [splitOnFirst]
  | cons c rest ih =>
    intro post h
    have hc : ¬ c = sep := fun hcs => h (hcs ▸ List.mem_cons_self c rest)
    have hrest : ¬ sep ∈ rest := fun hm => h (List.mem_cons_of_mem c hm)
    simp [splitOnFirst, hc, ih post hrest]

/-- The head of `dropWhile p`, when present, refutes `p`. -/
theorem head_dropWhile_false (p : Char → Bool) :
    ∀ (l : List Char) (c : Char), (l.dropWhile p).head? = some c →
      p c = false := by
  intro l
  induction l with
  | nil => intro c h; simp [List.dropWhile] at h
  | cons x xs ih =>
    intro c h
    by_cases hx : p x
    · rw [List.dropWhile_cons_of_pos hx] at h
      exact ih c h
    · rw [List.dropWhile_cons_of_neg hx] at h
      simp at h
      subst h
      exact Bool.not_eq_true _ ▸ (by simpa using hx)

/-- When `dropWhile` keeps a last element, it is the last element of the
whole list. -/
theorem getLast_dropWhile (p : Char → Bool) (l : List Char) (c : Char)
    (h : (l.dropWhile p).getLast? = some c) : l.getLast? = some c := by
  have hsplit := List.takeWhile_append_dropWhile p l
  calc l.getLast? = (l.takeWhile p ++ l.dropWhile p).getLast? := by rw [hsplit]
    _ = ((l.dropWhile p).getLast?).or ((l.takeWhile p).getLast?) :=
        List.getLast?_append
    _ = some c := by rw [h]; rfl

/-- Python `strip` leaves no leading whitespace. -/
theorem pyStrip_head (s : String) (c : Char) :
    (pyStrip s).data.head? = some c → c.isWhitespace = false := by
  intro h
  rw [pyStrip, data_mk, List.head?_reverse] at h
  have hlast := getLast_dropWhile Char.isWhitespace
    (s.data.dropWhile Char.isWhitespace).reverse c h
  rw [List.getLast?_reverse] at hlast
  exact head_dropWhile_false Char.isWhitespace s.data c hlast

/-- Python `strip` leaves no trailing whitespace. -/
theorem pyStrip_getLast (s : String) (c : Char) :
    (pyStrip s).data.getLast? = some c → c.isWhitespace = false := by
  intro h
  rw [pyStrip, data_mk, List.getLast?_reverse] at h
  exact head_dropWhile_false Char.isWhitespace _ c h

/-- C1, counterexample: the claim quantifies over every integer budget,
but for the negative budget `-1` the returned window is empty and the
sum of its token costs is `0`, which is not `≤ -1`. -/
theorem C1_counterexample :
    ¬ ((historyCost heuristic_count
        (window_by_token_budget heuristic_count
          [⟨"user", "hi"⟩] (-1)) : Int) ≤ -1) := by
  decide

/-- C1 (amended): for every estimator, history and budget `b ≥ 0`, the
sum of the rendered-line token costs of the window returned by
`window_by_token_budget` is `≤ b`; every turn of the window fits under
the budget on its own (so a single turn whose rendered cost exceeds `b`
is excluded entirely); for `b < 0` the window is empty; and under the
heuristic estimator a zero budget on a non-empty history yields the
empty window. -/
theorem C1_token_budget_window (est : String → Nat) (H : List Turn)
    (b : Int) :
    (0 ≤ b →
      (historyCost est (window_by_token_budget est H b) : Int) ≤ b) ∧
    (∀ x ∈ window_by_token_budget est H b,
      (est (renderLine x) : Int) ≤ b) ∧
    (b < 0 → window_by_token_budget est H b = []) ∧
    (H ≠ [] → window_by_token_budget heuristic_count H 0 = []) := by
  refine ⟨?_, ?_, ?_, ?_⟩
  · intro hb
    have h := windowAcc_le est b H.reverse 0 (by exact_mod_cast hb)
    rw [window_by_token_budget, historyCost_reverse]
    simpa using h
  · intro x hx
    rw [window_by_token_budget, List.mem_reverse] at hx
    have h := windowAcc_mem est b H.reverse 0 x hx
    simpa using h
  · intro hb
    rw [window_by_token_budget, windowAcc_over est b H.reverse 0 (by simpa)]
    rfl
  · intro hne
    cases hrev : H.reverse with
    | nil => exact absurd (List.reverse_eq_nil_iff.mp hrev) hne
    | cons y ys =>
      rw [window_by_token_budget, hrev, windowAcc_cons, if_pos]
      · rfl
      · have := one_le_heuristic_renderLine y
        push_cast
        omega

/-- C1, witness: the amended theorem applied at concrete inputs. -/
theorem C1_token_budget_window_witness :
    ((historyCost heuristic_count
        (window_by_token_budget heuristic_count exHist5 6) : Int) ≤ 6) ∧
    window_by_token_budget heuristic_count [⟨"user", "hi"⟩] (-1) = [] ∧
    window_by_token_budget heuristic_count exHist5 0 = [] := by
  refine ⟨(C1_token_budget_window heuristic_count exHist5 6).1 (by decide),
    (C1_token_budget_window heuristic_count
      [⟨"user", "hi"⟩] (-1)).2.2.1 (by decide),
    (C1_token_budget_window heuristic_count exHist5 0).2.2.2 (by decide)⟩

/-- C2: for every estimator, history and threshold, the output of each
windower is a contiguous suffix of the input history in the original
chronological order. -/
theorem C2_window_suffix (est : String → Nat) (H : List Turn) (n b : Int) :
    (∃ pre, pre ++ window_by_max_turns H n = H) ∧
    (∃ pre, pre ++ window_by_token_budget est H b = H) := by
  constructor
  · by_cases h : n ≤ 0
    · exact ⟨H, by simp [window_by_max_turns, h]⟩
    · refine ⟨H.take (H.length - n.toNat), ?_⟩
      rw [window_by_max_turns, if_neg h]
      exact List.take_append_drop _ H
  · obtain ⟨rest, hr⟩ := windowAcc_suffix est b H.reverse 0
    refine ⟨rest.reverse, ?_⟩
    rw [window_by_token_budget]
    have := congrArg List.reverse hr
    rw [List.reverse_append, List.reverse_reverse] at this
    exact this

/-- C3: windowing is idempotent for both constraint kinds: applying the
windower to its own output with the unchanged threshold returns that
output unchanged. -/
theorem C3_window_idempotent (est : String → Nat) (H : List Turn)
    (n b : Int) :
    window_by_max_turns (window_by_max_turns H n) n =
      window_by_max_turns H n ∧
    window_by_token_budget est (window_by_token_budget est H b) b =
      window_by_token_budget est H b := by
  constructor
  · by_cases h : n ≤ 0
    · simp [window_by_max_turns, h]
    · rw [window_by_max_turns, if_neg h]
      rw [window_by_max_turns, if_neg h]
      have hlen : (H.drop (H.length - n.toNat)).length - n.toNat = 0 := by
        rw [List.length_drop]
        omega
      rw [hlen, List.drop_zero]
  · rw [window_by_token_budget, window_by_token_budget,
      List.reverse_reverse, windowAcc_idem]

/-- C4, counterexample: the claim says the token-budget windower is
selected for every supplied token-budget value, but a supplied budget of
`0` is falsy in the source's guard, so the max-turns windower is used:
at `token_budget = 0`, `max_turns = 1` the selected window is the last
turn while the token-budget windower returns the empty window. -/
theorem C4_counterexample :
    select_window heuristic_count exHist5 (some 0) 1 ≠
      window_by_token_budget heuristic_count exHist5 0 := by
  decide

/-- C4 (amended): whenever both constraints are supplied and the
supplied token budget is positive, the selected window is the
token-budget windower's result and the max-turns value is ignored; a
supplied non-positive budget falls back to the max-turns windower. -/
theorem C4_precedence (est : String → Nat) (H : List Turn) (b mt : Int) :
    (0 < b → select_window est H (some b) mt =
      window_by_token_budget est H b) ∧
    (b ≤ 0 → select_window est H (some b) mt =
      window_by_max_turns H mt) := by
  constructor
  · intro hb
    rw [select_window, if_pos ⟨hb.ne', hb⟩]
  · intro hb
    rw [select_window, if_neg]
    intro hcon
    exact absurd hcon.2 (by omega)

/-- C4, witness: the amended theorem applied at concrete inputs. -/
theorem C4_precedence_witness :
    select_window heuristic_count exHist5 (some 6) 1 =
      window_by_token_budget heuristic_count exHist5 6 ∧
    select_window heuristic_count exHist5 (some 0) 1 =
      window_by_max_turns exHist5 1 :=
  ⟨(C4_precedence heuristic_count exHist5 6 1).1 (by decide),
   (C4_precedence heuristic_count exHist5 0 1).2 (by decide)⟩

/-- C5: the max-turns windower returns the empty history when `n ≤ 0`,
and otherwise exactly the last `min n (length H)` turns of `H`, order
preserved. -/
theorem C5_max_turns (H : List Turn) (n : Int) :
    (n ≤ 0 → window_by_max_turns H n = []) ∧
    (0 < n →
      window_by_max_turns H n =
        H.drop (H.length - min n.toNat H.length) ∧
      (window_by_max_turns H n).length = min n.toNat H.length) := by
  constructor
  · intro h
    rw [window_by_max_turns, if_pos h]
  · intro h
    have hn : ¬ n ≤ 0 := by omega
    constructor
    · rw [window_by_max_turns, if_neg hn]
      congr 1
      omega
    · rw [window_by_max_turns, if_neg hn, List.length_drop]
      have : 0 < n.toNat := by omega
      omega

/-- C5, witness: on the spec's five-turn example with `n = 4` the last
four turns are returned, dropping only the first. -/
theorem C5_max_turns_witness :
    window_by_max_turns exHist5 4 =
      [⟨"assistant", "b"⟩, ⟨"user", "c"⟩, ⟨"assistant", "d"⟩,
       ⟨"user", "e"⟩] := by
  have h := ((C5_max_turns exHist5 4).2 (by decide)).1
  rw [h]
  decide

/-- C6: the normalizer drops a line with no colon; a line with a colon
splits at its first colon into a trimmed lowercased role and a trimmed
content, kept exactly when the role is `"user"` or `"assistant"`;
normalization distributes over concatenation (so the kept turns stay in
input order); and the spec's two-line malformed example normalizes to
the empty history. -/
theorem C6_normalize (s : String) (pre post : List Char)
    (lines lines2 : List String) :
    (¬ ':' ∈ s.data → parse_turn s = none) ∧
    (¬ ':' ∈ pre →
      parse_turn (String.mk (pre ++ ':' :: post)) =
        (if pyLower (pyStrip (String.mk pre)) = "user" ∨
            pyLower (pyStrip (String.mk pre)) = "assistant"
         then some ⟨pyLower (pyStrip (String.mk pre)),
                    pyStrip (String.mk post)⟩
         else none)) ∧
    normalize_history (lines ++ lines2) =
      normalize_history lines ++ normalize_history lines2 ∧
    normalize_history ["bogus line with no colon", "system: hi"] = [] := by
  refine ⟨?_, ?_, ?_, ?_⟩
  · intro h
    simp [parse_turn, splitOnFirst_eq_none ':' s.data h]
  · intro h
    simp only [parse_turn, data_mk, splitOnFirst_first ':' pre post h]
    by_cases h1 : pyLower (pyStrip (String.mk pre)) = "user" <;>
      by_cases h2 : pyLower (pyStrip (String.mk pre)) = "assistant" <;>
      simp [h1, h2]
  · simp [normalize_history, List.filterMap_append]
  · decide

/-- C6, witness: the claim theorem applied to a colon-free line and to a
line with an upper-case padded role. -/
theorem C6_normalize_witness :
    parse_turn "no colon in this line" = none ∧
    parse_turn (String.mk (" USER ".data ++ ':' :: "  hi there ".data)) =
      some ⟨"user", "hi there"⟩ := by
  constructor
  · exact (C6_normalize "no colon in this line" [] [] [] []).1 (by decide)
  · have h := (C6_normalize "x" " USER ".data "  hi there ".data [] []).2.1
      (by decide)
    rw [h]
    decide

/-- C7: the heuristic estimator is the length of the token list produced
by the word-run/punctuation scanner; the empty string has zero tokens;
and `"Hello, world!"` has exactly the four tokens `"Hello"`, `","`,
`"world"`, `"!"`. -/
theorem C7_heuristic (s : String) :
    heuristic_count s = (findallTokens s.data).length ∧
    heuristic_count "" = 0 ∧
    heuristic_count "Hello, world!" = 4 ∧
    (findallTokens ("Hello, world!" : String).data).map String.mk =
      ["Hello", ",", "world", "!"] :=
  ⟨rfl, by decide, by decide, by decide⟩

/-- C8: with the system-prompt resource missing, `build_prompt` reports
the missing-resource error for every user message, and the result does
not depend on the user message in any way (no user-content processing
happens). -/
theorem C8_missing_resource (m1 m2 : String) :
    build_prompt none m1 =
      Except.error "Missing system prompt at SYSTEM_PROMPT_PATH" ∧
    build_prompt none m1 = build_prompt none m2 :=
  ⟨rfl, rfl⟩

/-- C9: any error outcome of the primary (subword-tokenizer) strategy is
swallowed inside `count_tokens` and replaced by the heuristic count; a
successful primary count is returned as is; in either case the caller
receives a plain number. -/
theorem C9_estimator_fallback
    (primary : String → Option String → Except String Nat)
    (text : String) (model : Option String) :
    (∀ e, primary text model = Except.error e →
      count_tokens primary text model = heuristic_count text) ∧
    (∀ n, primary text model = Except.ok n →
      count_tokens primary text model = n) := by
  constructor
  · intro e he
    simp [count_tokens, he]
  · intro n hn
    simp [count_tokens, hn]

/-- C9, witness: a primary strategy that always raises (a missing
`tiktoken` import) degrades to the heuristic count. -/
theorem C9_estimator_fallback_witness :
    count_tokens (fun _ _ => Except.error "ModuleNotFoundError: tiktoken")
      "Hello, world!" none = 4 := by
  have h := (C9_estimator_fallback
    (fun _ _ => Except.error "ModuleNotFoundError: tiktoken")
    "Hello, world!" none).1 "ModuleNotFoundError: tiktoken" rfl
  rw [h]
  decide

/-- C10: when the resource exists, the system field of `build_prompt`'s
output is the resource text stripped of leading and trailing whitespace
(not the resource verbatim): its first and last characters, when
present, are never whitespace. -/
theorem C10_system_stripped (text msg : String) :
    build_prompt (some text) msg =
      Except.ok ⟨pyStrip text, pyStrip msg⟩ ∧
    (∀ c, (pyStrip text).data.head? = some c → c.isWhitespace = false) ∧
    (∀ c, (pyStrip text).data.getLast? = some c → c.isWhitespace = false) :=
  ⟨rfl, fun c => pyStrip_head text c, fun c => pyStrip_getLast text c⟩

/-- C10, witness: the claim theorem applied to a padded resource text. -/
theorem C10_system_stripped_witness :
    build_prompt (some "  You are a helpful mentor.  ") "  explain BFS  " =
      Except.ok ⟨"You are a helpful mentor.", "explain BFS"⟩ := by
  have h := (C10_system_stripped "  You are a helpful mentor.  "
    "  explain BFS  ").1
  rw [h]
  have h1 : pyStrip "  You are a helpful mentor.  " =
      "You are a helpful mentor." := by decide
  have h2 : pyStrip "  explain BFS  " = "explain BFS" := by decide
  rw [h1, h2]
